import Mathlib

/-!
Verification of the week-view task synchronizer (`TaskView.js`).

The development shallowly embeds the component's date logic and state
handlers.  JavaScript `Date` objects are modelled at the level the
component uses them: a timestamp in minutes since the Unix epoch together
with a fixed local-time offset, and the ECMAScript calendar conversions
(day number ↔ proleptic-Gregorian civil date) are embedded as the
mathematical functions the ECMAScript specification defines
(`MakeDay`, `YearFromTime`, `MonthFromTime`, `DateFromTime`, `WeekDay`).
Integer division below is floor division (`Int` `/` in Lean), matching
the real-valued `floor` used throughout the ECMAScript date algorithms.
-/

set_option maxHeartbeats 4000000
set_option maxRecDepth 16000

namespace TaskView

/-- Proleptic-Gregorian leap-year predicate (ECMAScript `InLeapYear`). -/
def isLeap (y : Int) : Prop := (y % 4 = 0 ∧ y % 100 ≠ 0) ∨ y % 400 = 0

instance (y : Int) : Decidable (isLeap y) := by
  unfold isLeap; infer_instance

/-- Number of days in a month (ECMAScript `DaysInMonth`); `m` is 1-based. -/
def daysInMonth (y m : Int) : Int :=
  if m = 2 then (if isLeap y then 29 else 28)
  else if m = 4 ∨ m = 6 ∨ m = 9 ∨ m = 11 then 30
  else 31

/-- A well-formed civil calendar date (1-based month and day). -/
def validDate (y m d : Int) : Prop :=
  1 ≤ m ∧ m ≤ 12 ∧ 1 ≤ d ∧ d ≤ daysInMonth y m

instance (y m d : Int) : Decidable (validDate y m d) := by
  unfold validDate; infer_instance

/-- Day number (days since 1970-01-01) of a civil date: the mathematical
content of ECMAScript `MakeDay(y, m-1, d)`. -/
def daysFromCivil (y m d : Int) : Int :=
  let yy := if m ≤ 2 then y - 1 else y
  let era := yy / 400
  let yoe := yy - era * 400
  let mp := if m ≤ 2 then m + 9 else m - 3
  let doy := (153 * mp + 2) / 5 + d - 1
  let doe := yoe * 365 + yoe / 4 - yoe / 100 + doy
  era * 146097 + doe - 719468

/-- Civil date of a day number: the mathematical content of ECMAScript
`YearFromTime` / `MonthFromTime` / `DateFromTime` at day granularity. -/
def civilFromDays (z : Int) : Int × Int × Int :=
  let z2 := z + 719468
  let era := z2 / 146097
  let doe := z2 - era * 146097
  let yoe := (doe - doe / 1460 + doe / 36524 - doe / 146096) / 365
  let y := yoe + era * 400
  let doy := doe - (365 * yoe + yoe / 4 - yoe / 100)
  let mp := (5 * doy + 2) / 153
  let d := doy - (153 * mp + 2) / 5 + 1
  let m := if mp < 10 then mp + 3 else mp - 9
  (if m ≤ 2 then y + 1 else y, m, d)

/-- ECMAScript `WeekDay` at day granularity: 0 is Sunday, day 0
(1970-01-01) is a Thursday. -/
def weekDayOf (z : Int) : Int := (z + 4) % 7

/-- Year-of-era extraction: within one 400-year era the quantity
`(doe - doe/1460 + doe/36524 - doe/146096) / 365` is the year of era,
bracketing `doe` between that year's start and its last day. -/
theorem yoe_spec (doe n yoe : Int) (h1 : 0 ≤ doe) (h2 : doe < 146097)
    (hn : n = doe - doe / 1460 + doe / 36524 - doe / 146096)
    (hy : yoe = n / 365) :
    0 ≤ yoe ∧ yoe ≤ 399 ∧
    365 * yoe + yoe / 4 - yoe / 100 ≤ doe ∧
    doe - (365 * yoe + yoe / 4 - yoe / 100) ≤ 365 ∧
    (doe - (365 * yoe + yoe / 4 - yoe / 100) = 365 →
      ((yoe + 1) % 4 = 0 ∧ (yoe + 1) % 100 ≠ 0) ∨ yoe = 399) := by
  have hb1 : 0 ≤ yoe := by omega
  have hb2 : yoe ≤ 399 := by omega
  refine ⟨hb1, hb2, ?_⟩
  interval_cases yoe <;> omega

/-- Converse of `yoe_spec`: a day offset inside year `yoe` of an era is
mapped back to `yoe` by the year-of-era formula. -/
theorem yoe_rev (yoe doy doe n : Int) (h1 : 0 ≤ yoe) (h2 : yoe ≤ 399)
    (h3 : 0 ≤ doy)
    (h4 : doy ≤ 364 ∨ (doy = 365 ∧
      (((yoe + 1) % 4 = 0 ∧ (yoe + 1) % 100 ≠ 0) ∨ yoe = 399)))
    (hdoe : doe = 365 * yoe + yoe / 4 - yoe / 100 + doy)
    (hn : n = doe - doe / 1460 + doe / 36524 - doe / 146096) :
    n / 365 = yoe := by
  interval_cases yoe <;> omega

/-- Unfolding of `civilFromDays` into named components. -/
theorem civilFromDays_shape (z era doe yoe doy mp : Int)
    (hera : era = (z + 719468) / 146097)
    (hdoe : doe = z + 719468 - era * 146097)
    (hyoe : yoe = (doe - doe / 1460 + doe / 36524 - doe / 146096) / 365)
    (hdoy : doy = doe - (365 * yoe + yoe / 4 - yoe / 100))
    (hmp : mp = (5 * doy + 2) / 153) :
    civilFromDays z =
      (if (if mp < 10 then mp + 3 else mp - 9) ≤ 2
          then yoe + era * 400 + 1 else yoe + era * 400,
       if mp < 10 then mp + 3 else mp - 9,
       doy - (153 * mp + 2) / 5 + 1) := by
  subst hmp hdoy hyoe hdoe hera
  rfl

/-- Unfolding of `daysFromCivil` into named components. -/
theorem daysFromCivil_shape (y m d yy era yoe mp : Int)
    (hyy : yy = if m ≤ 2 then y - 1 else y)
    (hera : era = yy / 400)
    (hyoe : yoe = yy - era * 400)
    (hmp : mp = if m ≤ 2 then m + 9 else m - 3) :
    daysFromCivil y m d =
      era * 146097 +
        (yoe * 365 + yoe / 4 - yoe / 100 + ((153 * mp + 2) / 5 + d - 1)) -
        719468 := by
  subst hmp hyoe hera hyy
  rfl

/-- Round trip: day number → civil date → day number is the identity
(hypothesis form). -/
theorem daysFromCivil_of_civilFromDays (z y m d : Int)
    (h : civilFromDays z = (y, m, d)) : daysFromCivil y m d = z := by
  obtain ⟨era, hera⟩ : ∃ e, e = (z + 719468) / 146097 := ⟨_, rfl⟩
  obtain ⟨doe, hdoe⟩ : ∃ e, e = z + 719468 - era * 146097 := ⟨_, rfl⟩
  obtain ⟨n, hn⟩ : ∃ e, e = doe - doe / 1460 + doe / 36524 - doe / 146096 :=
    ⟨_, rfl⟩
  obtain ⟨yoe, hyoe⟩ : ∃ e, e = n / 365 := ⟨_, rfl⟩
  obtain ⟨doy, hdoy⟩ : ∃ e, e = doe - (365 * yoe + yoe / 4 - yoe / 100) :=
    ⟨_, rfl⟩
  obtain ⟨mp, hmp⟩ : ∃ e, e = (5 * doy + 2) / 153 := ⟨_, rfl⟩
  have hdoe1 : 0 ≤ doe := by omega
  have hdoe2 : doe < 146097 := by omega
  obtain ⟨hy1, hy2, hy3, hy4, -⟩ :=
    yoe_spec doe n yoe hdoe1 hdoe2 hn hyoe
  rw [civilFromDays_shape z era doe yoe doy mp hera hdoe
    (by rw [hyoe, hn]) hdoy hmp] at h
  have hdoy1 : 0 ≤ doy := by omega
  have hdoy2 : doy ≤ 365 := by omega
  have hmp1 : 0 ≤ mp := by omega
  have hmp2 : mp ≤ 11 := by omega
  rw [Prod.mk.injEq, Prod.mk.injEq] at h
  obtain ⟨hy', hm', hd'⟩ := h
  obtain ⟨yy2, hyy2⟩ : ∃ e, e = if m ≤ 2 then y - 1 else y := ⟨_, rfl⟩
  obtain ⟨era2, hera2⟩ : ∃ e, e = yy2 / 400 := ⟨_, rfl⟩
  obtain ⟨yoe2, hyoe2⟩ : ∃ e, e = yy2 - era2 * 400 := ⟨_, rfl⟩
  obtain ⟨mp2, hmp2⟩ : ∃ e, e = if m ≤ 2 then m + 9 else m - 3 := ⟨_, rfl⟩
  rw [daysFromCivil_shape y m d yy2 era2 yoe2 mp2 hyy2 hera2 hyoe2 hmp2]
  split_ifs at hy' hm' hyy2 hmp2 <;>
    (have e1 : mp2 = mp := by omega
     have e2 : era2 = era := by omega
     have e3 : yoe2 = yoe := by omega
     rw [e2, e3, e1]
     omega)

/-- Round trip: converting a day number to a civil date and back is the
identity. -/
theorem daysFromCivil_civilFromDays (z : Int) :
    daysFromCivil (civilFromDays z).1 (civilFromDays z).2.1
      (civilFromDays z).2.2 = z :=
  daysFromCivil_of_civilFromDays z _ _ _ rfl

/-- Round trip: converting a valid civil date to its day number and back
is the identity. -/
theorem civilFromDays_daysFromCivil (y m d : Int) (h : validDate y m d) :
    civilFromDays (daysFromCivil y m d) = (y, m, d) := by
  obtain ⟨h1, h2, h3, h4⟩ := h
  obtain ⟨yy, hyy⟩ : ∃ e, e = if m ≤ 2 then y - 1 else y := ⟨_, rfl⟩
  obtain ⟨era, hera⟩ : ∃ e, e = yy / 400 := ⟨_, rfl⟩
  obtain ⟨yoe, hyoe⟩ : ∃ e, e = yy - era * 400 := ⟨_, rfl⟩
  obtain ⟨mp, hmp⟩ : ∃ e, e = if m ≤ 2 then m + 9 else m - 3 := ⟨_, rfl⟩
  obtain ⟨doy, hdoy⟩ : ∃ e, e = (153 * mp + 2) / 5 + d - 1 := ⟨_, rfl⟩
  obtain ⟨doe, hdoe⟩ : ∃ e, e = yoe * 365 + yoe / 4 - yoe / 100 + doy :=
    ⟨_, rfl⟩
  have hz : daysFromCivil y m d = era * 146097 + doe - 719468 := by
    simp only [daysFromCivil]
    rw [← hyy, ← hera, ← hyoe, ← hmp, ← hdoy, ← hdoe]
  rw [hz]
  have hdim : d ≤ daysInMonth y m := h4
  have hyoe1 : 0 ≤ yoe := by omega
  have hyoe2 : yoe ≤ 399 := by omega
  rcases le_or_lt m 2 with hm2 | hm2
  -- january / february case: yy = y - 1, mp = m + 9 ∈ {10, 11}
  · rw [if_pos hm2] at hyy
    rw [if_pos hm2] at hmp
    have hyv : y = yoe + era * 400 + 1 := by omega
    have hjan : m = 1 → d ≤ 31 := by
      intro hm; subst hm
      norm_num [daysInMonth] at hdim; exact hdim
    have hdoy1 : 0 ≤ doy := by omega
    by_cases hly : isLeap y
    · have hfeb : m = 2 → d ≤ 29 := by
        intro hm; subst hm
        norm_num [daysInMonth] at hdim
        rw [if_pos hly] at hdim
        exact hdim
      have hlidx : ((yoe + 1) % 4 = 0 ∧ (yoe + 1) % 100 ≠ 0) ∨ yoe = 399 := by
        unfold isLeap at hly; omega
      have hdoy2 : doy ≤ 364 ∨ (doy = 365 ∧
          (((yoe + 1) % 4 = 0 ∧ (yoe + 1) % 100 ≠ 0) ∨ yoe = 399)) := by
        rcases Int.lt_or_le doy 365 with h365 | h365
        · left; omega
        · right; exact ⟨by omega, hlidx⟩
      have hyoerec := yoe_rev yoe doy doe
        (doe - doe / 1460 + doe / 36524 - doe / 146096)
        hyoe1 hyoe2 hdoy1 hdoy2 (by omega) rfl
      rw [civilFromDays_shape (era * 146097 + doe - 719468) era doe yoe doy mp
        (by omega) (by omega) hyoerec.symm (by omega) (by omega)]
      rw [Prod.mk.injEq, Prod.mk.injEq]
      refine ⟨?_, ?_, ?_⟩
      · split_ifs <;> omega
      · split_ifs <;> omega
      · omega
    · have hfeb : m = 2 → d ≤ 28 := by
        intro hm; subst hm
        norm_num [daysInMonth] at hdim
        rw [if_neg hly] at hdim
        exact hdim
      have hdoy2 : doy ≤ 364 ∨ (doy = 365 ∧
          (((yoe + 1) % 4 = 0 ∧ (yoe + 1) % 100 ≠ 0) ∨ yoe = 399)) := by
        left; omega
      have hyoerec := yoe_rev yoe doy doe
        (doe - doe / 1460 + doe / 36524 - doe / 146096)
        hyoe1 hyoe2 hdoy1 hdoy2 (by omega) rfl
      rw [civilFromDays_shape (era * 146097 + doe - 719468) era doe yoe doy mp
        (by omega) (by omega) hyoerec.symm (by omega) (by omega)]
      rw [Prod.mk.injEq, Prod.mk.injEq]
      refine ⟨?_, ?_, ?_⟩
      · split_ifs <;> omega
      · split_ifs <;> omega
      · omega
  -- march .. december case: yy = y, mp = m - 3 ∈ [0, 9]
  · rw [if_neg (by omega)] at hyy
    rw [if_neg (by omega)] at hmp
    have hyv : y = yoe + era * 400 := by omega
    have hmpb1 : 0 ≤ mp := by omega
    have hmpb2 : mp ≤ 9 := by omega
    have hdlen : d ≤ 31 ∧ ((m = 4 ∨ m = 6 ∨ m = 9 ∨ m = 11) → d ≤ 30) := by
      simp only [daysInMonth] at hdim
      split_ifs at hdim <;> omega
    have hdoy1 : 0 ≤ doy := by omega
    have hdoy2 : doy ≤ 364 ∨ (doy = 365 ∧
        (((yoe + 1) % 4 = 0 ∧ (yoe + 1) % 100 ≠ 0) ∨ yoe = 399)) := by
      left; omega
    have hyoerec := yoe_rev yoe doy doe
      (doe - doe / 1460 + doe / 36524 - doe / 146096)
      hyoe1 hyoe2 hdoy1 hdoy2 (by omega) rfl
    have hmprec : mp = (5 * doy + 2) / 153 := by
      obtain ⟨hd31, hd30⟩ := hdlen
      interval_cases mp <;> omega
    rw [civilFromDays_shape (era * 146097 + doe - 719468) era doe yoe doy mp
      (by omega) (by omega) hyoerec.symm (by omega) hmprec]
    rw [Prod.mk.injEq, Prod.mk.injEq]
    refine ⟨?_, ?_, ?_⟩
    · split_ifs <;> omega
    · split_ifs <;> omega
    · omega

/-! String layer: decimal digits, ISO-8601 date strings (the date part of
`Date.prototype.toISOString`) and the ECMAScript Date Time String Format
parser for date-only strings, on `List Char`. -/

/-- The decimal digit character for `n < 10`. -/
def digitChar (n : Nat) : Char := Char.ofNat (48 + n)

/-- Numeric value of a digit character. -/
def digitVal (c : Char) : Nat := c.toNat - 48

/-- Decimal digit test. -/
def isDigitCh (c : Char) : Bool := 48 ≤ c.toNat && c.toNat ≤ 57

/-- Big-endian decimal digit expansion (fuel-based structural recursion;
`natToChars 0 = []`, padding supplies the zero). -/
def natToCharsAux : Nat → Nat → List Char
  | 0, _ => []
  | fuel + 1, n =>
    if n = 0 then [] else natToCharsAux fuel (n / 10) ++ [digitChar (n % 10)]

/-- Big-endian decimal digit string of a natural number. -/
def natToChars (n : Nat) : List Char := natToCharsAux n n

/-- Zero-pad a natural number to width `w`. -/
def padNat (w n : Nat) : List Char :=
  List.replicate (w - (natToChars n).length) '0' ++ natToChars n

/-- Big-endian decimal value of a digit string, accumulated onto `acc`. -/
def valFrom (acc : Nat) (l : List Char) : Nat :=
  l.foldl (fun a c => a * 10 + digitVal c) acc

theorem digitVal_digitChar (n : Nat) (h : n < 10) :
    digitVal (digitChar n) = n := by
  interval_cases n <;> decide

theorem isDigitCh_digitChar (n : Nat) (h : n < 10) :
    isDigitCh (digitChar n) = true := by
  interval_cases n <;> decide

theorem natToCharsAux_spec (fuel n : Nat) (h : n ≤ fuel) :
    valFrom 0 (natToCharsAux fuel n) = n ∧
    (∀ c ∈ natToCharsAux fuel n, isDigitCh c = true) ∧
    (∀ k, n < 10 ^ k → (natToCharsAux fuel n).length ≤ k) := by
  induction fuel generalizing n with
  | zero =>
    have : n = 0 := by omega
    subst this
    exact ⟨rfl, by simp [natToCharsAux], by simp [natToCharsAux]⟩
  | succ fuel ih =>
    by_cases hn : n = 0
    · subst hn
      exact ⟨rfl, by simp [natToCharsAux], by simp [natToCharsAux]⟩
    · have hdiv : n / 10 ≤ fuel := by omega
      obtain ⟨ih1, ih2, ih3⟩ := ih (n / 10) hdiv
      have hstep : natToCharsAux (fuel + 1) n =
          natToCharsAux fuel (n / 10) ++ [digitChar (n % 10)] := by
        simp [natToCharsAux, hn]
      refine ⟨?_, ?_, ?_⟩
      · rw [hstep]
        unfold valFrom at ih1 ⊢
        rw [List.foldl_append, ih1]
        simp [digitVal_digitChar (n % 10) (by omega)]
        omega
      · rw [hstep]
        intro c hc
        rcases List.mem_append.mp hc with h1 | h1
        · exact ih2 c h1
        · simp at h1; subst h1
          exact isDigitCh_digitChar (n % 10) (by omega)
      · intro k hk
        rw [hstep]
        rw [List.length_append]
        have hkpos : 1 ≤ k := by
          rcases Nat.eq_zero_or_pos k with h | h
          · subst h; simp at hk; omega
          · exact h
        have : n / 10 < 10 ^ (k - 1) := by
          have h10 : 10 ^ k = 10 ^ (k - 1) * 10 := by
            rw [← pow_succ]
            congr 1
            omega
          rw [h10] at hk
          omega
        have := ih3 (k - 1) this
        simp
        omega

theorem valFrom_natToChars (n : Nat) : valFrom 0 (natToChars n) = n :=
  (natToCharsAux_spec n n le_rfl).1

theorem natToChars_digits (n : Nat) :
    ∀ c ∈ natToChars n, isDigitCh c = true :=
  (natToCharsAux_spec n n le_rfl).2.1

theorem natToChars_length (n k : Nat) (h : n < 10 ^ k) :
    (natToChars n).length ≤ k :=
  (natToCharsAux_spec n n le_rfl).2.2 k h

theorem valFrom_replicate_zero (acc j : Nat) :
    valFrom acc (List.replicate j '0') = acc * 10 ^ j := by
  induction j generalizing acc with
  | zero => simp [valFrom]
  | succ j ih =>
    rw [List.replicate_succ]
    unfold valFrom at ih ⊢
    rw [List.foldl_cons]
    rw [ih]
    have : digitVal '0' = 0 := rfl
    rw [this]
    ring

theorem valFrom_padNat (w n : Nat) : valFrom 0 (padNat w n) = n := by
  unfold padNat valFrom
  rw [List.foldl_append]
  have h0 : List.foldl (fun a c => a * 10 + digitVal c) 0
      (List.replicate (w - (natToChars n).length) '0') = 0 := by
    have := valFrom_replicate_zero 0 (w - (natToChars n).length)
    unfold valFrom at this
    simpa using this
  rw [h0]
  exact valFrom_natToChars n

theorem padNat_digits (w n : Nat) : ∀ c ∈ padNat w n, isDigitCh c = true := by
  intro c hc
  rcases List.mem_append.mp hc with h1 | h1
  · have : c = '0' := List.eq_of_mem_replicate h1
    subst this; decide
  · exact natToChars_digits n c h1

theorem padNat_length (w n : Nat) (h : n < 10 ^ w) :
    (padNat w n).length = w := by
  unfold padNat
  rw [List.length_append, List.length_replicate]
  have := natToChars_length n w h
  omega



/-- The date portion of `Date.prototype.toISOString`: `YYYY-MM-DD` for
years 0..9999, expanded `±YYYYYY-MM-DD` otherwise. -/
def fmtYMD (y m d : Int) : List Char :=
  (if 0 ≤ y ∧ y ≤ 9999 then padNat 4 y.toNat
   else if y < 0 then '-' :: padNat 6 (-y).toNat
   else '+' :: padNat 6 y.toNat) ++
  ('-' :: padNat 2 m.toNat ++ ('-' :: padNat 2 d.toNat))

/-- Read exactly `k` decimal digits, returning their value (onto `acc`)
and the remaining characters. -/
def readFixed : Nat → Nat → List Char → Option (Nat × List Char)
  | 0, acc, s => some (acc, s)
  | _ + 1, _, [] => none
  | k + 1, acc, c :: s =>
    if isDigitCh c then readFixed k (acc * 10 + digitVal c) s else none

/-- Parse `-MM-DD` after the year of a date-only string. -/
def parseTail (y : Int) (s : List Char) : Option (Int × Int × Int) :=
  match s with
  | '-' :: r1 =>
    match readFixed 2 0 r1 with
    | some (m, r2) =>
      match r2 with
      | '-' :: r3 =>
        match readFixed 2 0 r3 with
        | some (d, r4) =>
          if r4 = [] then some (y, (m : Int), (d : Int)) else none
        | none => none
      | _ => none
    | none => none
  | _ => none

/-- Fields of a date-only string in the ECMAScript Date Time String
Format: `YYYY-MM-DD` or expanded `±YYYYYY-MM-DD` (`-000000` rejected). -/
def parseYMDfields (s : List Char) : Option (Int × Int × Int) :=
  match s with
  | [] => none
  | c :: rest =>
    if c = '+' then
      match readFixed 6 0 rest with
      | some (n, r1) => parseTail (n : Int) r1
      | none => none
    else if c = '-' then
      match readFixed 6 0 rest with
      | some (n, r1) =>
        if n = 0 then none else parseTail (-(n : Int)) r1
      | none => none
    else
      match readFixed 4 0 (c :: rest) with
      | some (n, r1) => parseTail (n : Int) r1
      | none => none

theorem readFixed_append (l : List Char) (acc : Nat) (rest : List Char)
    (h : ∀ c ∈ l, isDigitCh c = true) :
    readFixed l.length acc (l ++ rest) = some (valFrom acc l, rest) := by
  induction l generalizing acc with
  | nil => rfl
  | cons c l ih =>
    have hc : isDigitCh c = true := h c (List.mem_cons_self c l)
    have hrest : ∀ x ∈ l, isDigitCh x = true :=
      fun x hx => h x (List.mem_cons_of_mem c hx)
    show readFixed (l.length + 1) acc (c :: (l ++ rest)) = _
    rw [readFixed, if_pos hc, ih (acc * 10 + digitVal c) hrest]
    rfl

theorem readFixed_padNat (w n : Nat) (rest : List Char) (h : n < 10 ^ w) :
    readFixed w 0 (padNat w n ++ rest) = some (n, rest) := by
  have h1 := readFixed_append (padNat w n) 0 rest (padNat_digits w n)
  rw [padNat_length w n h, valFrom_padNat] at h1
  exact h1

theorem parseTail_fmt (y m d : Int) (hm1 : 0 ≤ m) (hm2 : m < 100)
    (hd1 : 0 ≤ d) (hd2 : d < 100) :
    parseTail y ('-' :: padNat 2 m.toNat ++ ('-' :: padNat 2 d.toNat)) =
      some (y, m, d) := by
  have hmn : m.toNat < 10 ^ 2 := by omega
  have hdn : d.toNat < 10 ^ 2 := by omega
  have h1 : readFixed 2 0 (padNat 2 m.toNat ++ '-' :: padNat 2 d.toNat) =
      some (m.toNat, '-' :: padNat 2 d.toNat) := readFixed_padNat 2 _ _ hmn
  have h2 : readFixed 2 0 (padNat 2 d.toNat) = some (d.toNat, []) := by
    have := readFixed_padNat 2 d.toNat [] hdn
    rwa [List.append_nil] at this
  show parseTail y ('-' :: (padNat 2 m.toNat ++ '-' :: padNat 2 d.toNat)) =
    some (y, m, d)
  rw [parseTail]
  rw [h1]
  simp [h2, Int.toNat_of_nonneg hm1, Int.toNat_of_nonneg hd1]

theorem isDigitCh_ne_plus (c : Char) (h : isDigitCh c = true) : ¬ c = '+' := by
  intro heq; subst heq; exact absurd h (by decide)

theorem isDigitCh_ne_minus (c : Char) (h : isDigitCh c = true) : ¬ c = '-' := by
  intro heq; subst heq; exact absurd h (by decide)

theorem parseYMDfields_fmtYMD (y m d : Int) (hm1 : 1 ≤ m) (hm2 : m ≤ 12)
    (hd1 : 1 ≤ d) (hd2 : d ≤ 31) (hy1 : -400000 ≤ y) (hy2 : y ≤ 400000) :
    parseYMDfields (fmtYMD y m d) = some (y, m, d) := by
  have htail := parseTail_fmt y m d (by omega) (by omega) (by omega) (by omega)
  rcases le_or_lt 0 y with hy0 | hy0
  · rcases le_or_lt y 9999 with hy9 | hy9
    · -- plain 4-digit year
      have hyn : y.toNat < 10 ^ 4 := by omega
      have hlen : (padNat 4 y.toNat).length = 4 := padNat_length 4 _ hyn
      obtain ⟨c, t, hct⟩ : ∃ c t, padNat 4 y.toNat = c :: t := by
        cases hp : padNat 4 y.toNat with
        | nil => rw [hp] at hlen; simp at hlen
        | cons c t => exact ⟨c, t, rfl⟩
      have hcdig : isDigitCh c = true := by
        apply padNat_digits 4 y.toNat
        rw [hct]; exact List.mem_cons_self c t
      have hfmt : fmtYMD y m d =
          c :: (t ++ ('-' :: padNat 2 m.toNat ++ ('-' :: padNat 2 d.toNat))) := by
        rw [fmtYMD, if_pos ⟨hy0, hy9⟩, hct]
        exact List.cons_append c t _
      rw [hfmt, parseYMDfields,
        if_neg (isDigitCh_ne_plus c hcdig), if_neg (isDigitCh_ne_minus c hcdig)]
      have hread : readFixed 4 0
          (c :: (t ++ ('-' :: padNat 2 m.toNat ++ ('-' :: padNat 2 d.toNat)))) =
          some (y.toNat,
            '-' :: padNat 2 m.toNat ++ ('-' :: padNat 2 d.toNat)) := by
        have := readFixed_padNat 4 y.toNat
          ('-' :: padNat 2 m.toNat ++ ('-' :: padNat 2 d.toNat)) hyn
        rw [hct] at this
        exact this
      rw [hread]
      simp [Int.toNat_of_nonneg hy0]
      exact htail
    · -- expanded +YYYYYY year
      have hyn : y.toNat < 10 ^ 6 := by omega
      have hfmt : fmtYMD y m d =
          '+' :: (padNat 6 y.toNat ++
            ('-' :: padNat 2 m.toNat ++ ('-' :: padNat 2 d.toNat))) := by
        rw [fmtYMD, if_neg (by omega), if_neg (by omega)]
        exact List.cons_append _ _ _
      rw [hfmt, parseYMDfields, if_pos rfl]
      rw [readFixed_padNat 6 y.toNat _ hyn]
      simp [Int.toNat_of_nonneg hy0]
      exact htail
  · -- expanded -YYYYYY year
    have hyn : (-y).toNat < 10 ^ 6 := by omega
    have hfmt : fmtYMD y m d =
        '-' :: (padNat 6 (-y).toNat ++
          ('-' :: padNat 2 m.toNat ++ ('-' :: padNat 2 d.toNat))) := by
      rw [fmtYMD, if_neg (by omega), if_pos (by omega)]
      exact List.cons_append _ _ _
    rw [hfmt, parseYMDfields, if_neg (by decide), if_pos rfl]
    rw [readFixed_padNat 6 (-y).toNat _ hyn]
    have hne : ¬ (-y).toNat = 0 := by omega
    simp [hne]
    have hmax : -y ⊔ 0 = -y := max_eq_left (by omega)
    rw [hmax, neg_neg]
    exact htail

/-! ### JavaScript `Date` model at the component's granularity

A `Date` value is its timestamp in minutes since the Unix epoch; the
host's local time zone is a fixed offset `o` in minutes (local wall time
= UTC + `o`).  `new Date("YYYY-MM-DD")` yields UTC midnight of the
denoted day; the local calendar fields of a timestamp `t` are the civil
fields of its local day number `(t + o) / 1440`. -/

/-- Day number of the local calendar day containing timestamp `t` under
offset `o`. -/
def localDay (t o : Int) : Int := (t + o) / 1440

/-- Local calendar fields: `getFullYear`, `getMonth`+1 (1-based) and
`getDate` of a timestamp. -/
def localCivil (t o : Int) : Int × Int × Int := civilFromDays (localDay t o)

/-- Model of ECMAScript `MakeFullYear`: a year argument 0..99 denotes
1900..1999 (the two-digit-year rule applied by `Date.UTC` and the
multi-argument `Date` constructor). -/
def makeFullYear (y : Int) : Int := if 0 ≤ y ∧ y ≤ 99 then y + 1900 else y

/-- Model of `Date.UTC(y, m-1, d)`, in minutes, including the
`MakeFullYear` remap of its year argument. -/
def dateUTC (y m d : Int) : Int := 1440 * daysFromCivil (makeFullYear y) m d

/-- Date part of `Date.prototype.toISOString` (the UTC calendar fields of
the timestamp, formatted). -/
def toISODatePart (t : Int) : List Char :=
  let c := civilFromDays (t / 1440)
  fmtYMD c.1 c.2.1 c.2.2

/-- Model of `formatDateToYYYYMMDD` (TaskView.js lines 12-15): reads the local
calendar fields of the date, rebuilds the UTC timestamp of that calendar
day via `Date.UTC`, and returns the date part of `toISOString`. -/
def formatDateToYYYYMMDD (t o : Int) : List Char :=
  let c := localCivil t o
  toISODatePart (dateUTC c.1 c.2.1 c.2.2)

/-- Specialization of `formatDateToYYYYMMDD` to a date whose local calendar day
number is `z`; the function reads only the local calendar fields, so
this determines its output on every timestamp/offset pair with local
day `z`. -/
def formatDay (z : Int) : List Char :=
  let c := civilFromDays z
  toISODatePart (dateUTC c.1 c.2.1 c.2.2)

/-- Model of `new Date(s)` on a date-only string: UTC midnight of the denoted
day, in minutes; ill-formed or out-of-range strings give `none`
(an Invalid Date). -/
def parseDateOnly (s : List Char) : Option Int :=
  match parseYMDfields s with
  | some (y, m, d) =>
    if validDate y m d ∧ -100000000 ≤ daysFromCivil y m d ∧
        daysFromCivil y m d ≤ 100000000
    then some (1440 * daysFromCivil y m d) else none
  | none => none

/-- Every month has at most 31 days. -/
theorem daysInMonth_le (y m : Int) : daysInMonth y m ≤ 31 := by
  simp only [daysInMonth]
  split_ifs <;> omega

/-- The function `daysFromCivil` is linear in the day-of-month argument. -/
theorem daysFromCivil_day_add (y m d t : Int) :
    daysFromCivil y m (d + t) = daysFromCivil y m d + t := by
  obtain ⟨yy, hyy⟩ : ∃ e, e = if m ≤ 2 then y - 1 else y := ⟨_, rfl⟩
  obtain ⟨era, hera⟩ : ∃ e, e = yy / 400 := ⟨_, rfl⟩
  obtain ⟨yoe, hyoe⟩ : ∃ e, e = yy - era * 400 := ⟨_, rfl⟩
  obtain ⟨mp, hmp⟩ : ∃ e, e = if m ≤ 2 then m + 9 else m - 3 := ⟨_, rfl⟩
  rw [daysFromCivil_shape y m (d + t) yy era yoe mp hyy hera hyoe hmp,
    daysFromCivil_shape y m d yy era yoe mp hyy hera hyoe hmp]
  omega

/-- The function `civilFromDays` produces well-formed dates, with bounded year on the
JavaScript-representable range (hypothesis form). -/
theorem civilFromDays_fields (z y m d : Int)
    (h : civilFromDays z = (y, m, d)) :
    validDate y m d ∧
    (-100000010 ≤ z → z ≤ 100000010 → -400000 ≤ y ∧ y ≤ 400000) := by
  obtain ⟨era, hera⟩ : ∃ e, e = (z + 719468) / 146097 := ⟨_, rfl⟩
  obtain ⟨doe, hdoe⟩ : ∃ e, e = z + 719468 - era * 146097 := ⟨_, rfl⟩
  obtain ⟨n, hn⟩ : ∃ e, e = doe - doe / 1460 + doe / 36524 - doe / 146096 :=
    ⟨_, rfl⟩
  obtain ⟨yoe, hyoe⟩ : ∃ e, e = n / 365 := ⟨_, rfl⟩
  obtain ⟨doy, hdoy⟩ : ∃ e, e = doe - (365 * yoe + yoe / 4 - yoe / 100) :=
    ⟨_, rfl⟩
  obtain ⟨mp, hmp⟩ : ∃ e, e = (5 * doy + 2) / 153 := ⟨_, rfl⟩
  have hdoe1 : 0 ≤ doe := by omega
  have hdoe2 : doe < 146097 := by omega
  obtain ⟨hy1, hy2, hy3, hy4, hy5⟩ :=
    yoe_spec doe n yoe hdoe1 hdoe2 hn hyoe
  rw [civilFromDays_shape z era doe yoe doy mp hera hdoe
    (by rw [hyoe, hn]) hdoy hmp] at h
  have hdoy1 : 0 ≤ doy := by omega
  have hdoy2 : doy ≤ 365 := by omega
  have hmp1 : 0 ≤ mp := by omega
  have hmp2 : mp ≤ 11 := by omega
  rw [Prod.mk.injEq, Prod.mk.injEq] at h
  obtain ⟨hy', hm', hd'⟩ := h
  constructor
  · refine ⟨?_, ?_, ?_, ?_⟩
    · split_ifs at hm' <;> omega
    · split_ifs at hm' <;> omega
    · omega
    · simp only [daysInMonth]
      split_ifs with hc1 hc2 hc3
      · -- february of a leap year
        split_ifs at hy' hm' <;> omega
      · -- february of a common year: a leap day would contradict hc2
        simp only [isLeap] at hc2
        split_ifs at hy' hm' <;> omega
      · -- 30-day months
        split_ifs at hy' hm' <;> omega
      · -- 31-day months
        split_ifs at hy' hm' <;> omega
  · intro hz1 hz2
    constructor <;> (split_ifs at hy' <;> omega)

/-- Composite of the format/parse round trips on valid dates. -/
theorem parseDateOnly_fmtYMD (y m d : Int) (hv : validDate y m d)
    (hy1 : -400000 ≤ y) (hy2 : y ≤ 400000)
    (hr1 : -100000000 ≤ daysFromCivil y m d)
    (hr2 : daysFromCivil y m d ≤ 100000000) :
    parseDateOnly (fmtYMD y m d) = some (1440 * daysFromCivil y m d) := by
  obtain ⟨hm1, hm2, hd1, hd2⟩ := hv
  have hd31 : d ≤ 31 := le_trans hd2 (daysInMonth_le y m)
  rw [parseDateOnly,
    parseYMDfields_fmtYMD y m d hm1 hm2 hd1 hd31 hy1 hy2]
  show (if validDate y m d ∧ -100000000 ≤ daysFromCivil y m d ∧
      daysFromCivil y m d ≤ 100000000
    then some (1440 * daysFromCivil y m d) else none) =
    some (1440 * daysFromCivil y m d)
  rw [if_pos ⟨⟨hm1, hm2, hd1, hd2⟩, hr1, hr2⟩]

/-- The output of `formatDay` is the canonical string of the day's civil
fields, provided the civil year lies outside the `MakeFullYear` remap
range 0..99. -/
theorem formatDay_eq (z : Int)
    (h : (civilFromDays z).1 < 0 ∨ 100 ≤ (civilFromDays z).1) :
    formatDay z = fmtYMD (civilFromDays z).1 (civilFromDays z).2.1
      (civilFromDays z).2.2 := by
  rw [formatDay, toISODatePart, dateUTC, makeFullYear, if_neg (by omega :
      ¬ (0 ≤ (civilFromDays z).1 ∧ (civilFromDays z).1 ≤ 99)),
    daysFromCivil_civilFromDays]
  have hdiv : 1440 * z / 1440 = z := by omega
  rw [hdiv]

/-! ### Week-window calculator (local time zone = UTC at day granularity) -/

/-- Model of `Date.prototype.getDay`: local weekday, 0 = Sunday. -/
def getDay (z : Int) : Int := weekDayOf z

/-- Model of `Date.prototype.getDate`: local day of month. -/
def getDate (z : Int) : Int := (civilFromDays z).2.2

/-- Model of `Date.prototype.setDate n`: ECMAScript `MakeDay` of the date's local
year and month with day-of-month `n` (out-of-range `n` rolls across
months). -/
def setDate (z n : Int) : Int :=
  daysFromCivil (civilFromDays z).1 (civilFromDays z).2.1 n

/-- Model of `getStartOfWeek` (TaskView.js lines 18-22). -/
def getStartOfWeek (z : Int) : Int :=
  let day := getDay z
  let diff := getDate z - (if day = 0 then 6 else day - 1)
  setDate z diff

/-- Model of `getEndOfWeek` (TaskView.js lines 25-29). -/
def getEndOfWeek (startOfWeek : Int) : Int :=
  setDate startOfWeek (getDate startOfWeek + 6)

/-- Model of `generateWeekDates` (TaskView.js lines 32-40). -/
def generateWeekDates (startOfWeek : Int) : List Int :=
  (List.range 7).map (fun i => setDate startOfWeek (getDate startOfWeek + (i : Int)))

/-- The one-day forward correction applied to the selected date before
the week window is computed (TaskView.js lines 62-63 and 130-131). -/
def correctedDate (z : Int) : Int := setDate z (getDate z + 1)

/-- Setting the day-of-month relative to the current one shifts the day
number by the same amount. -/
theorem setDate_getDate_add (z t : Int) : setDate z (getDate z + t) = z + t := by
  rcases hc : civilFromDays z with ⟨y, m, d⟩
  have hA := daysFromCivil_of_civilFromDays z y m d hc
  rw [setDate, getDate, hc]
  show daysFromCivil y m (d + t) = z + t
  rw [daysFromCivil_day_add, hA]

/-- Closed form of `getStartOfWeek`. -/
theorem getStartOfWeek_eq (z : Int) :
    getStartOfWeek z =
      z - (if weekDayOf z = 0 then 6 else weekDayOf z - 1) := by
  rw [getStartOfWeek]
  show setDate z (getDate z - (if getDay z = 0 then 6 else getDay z - 1)) = _
  rw [sub_eq_add_neg, setDate_getDate_add, getDay]
  omega

/-- C1: for every reference date, the computed week window is the list of
7 consecutive days from the Monday on or before the corrected reference
date through the following Sunday, it contains the corrected date, and
the corrected date is the reference date shifted forward by one day
(Sunday counting as the 7th day of the prior week in the Monday
computation); for reference date 2024-06-12 the window is
2024-06-10 .. 2024-06-16. -/
theorem C1_week_window :
    (∀ z : Int,
      generateWeekDates (getStartOfWeek (correctedDate z)) =
        [getStartOfWeek (correctedDate z),
         getStartOfWeek (correctedDate z) + 1,
         getStartOfWeek (correctedDate z) + 2,
         getStartOfWeek (correctedDate z) + 3,
         getStartOfWeek (correctedDate z) + 4,
         getStartOfWeek (correctedDate z) + 5,
         getStartOfWeek (correctedDate z) + 6] ∧
      weekDayOf (getStartOfWeek (correctedDate z)) = 1 ∧
      getEndOfWeek (getStartOfWeek (correctedDate z)) =
        getStartOfWeek (correctedDate z) + 6 ∧
      weekDayOf (getStartOfWeek (correctedDate z) + 6) = 0 ∧
      correctedDate z = z + 1 ∧
      correctedDate z ∈ generateWeekDates (getStartOfWeek (correctedDate z))) ∧
    generateWeekDates (getStartOfWeek (correctedDate (daysFromCivil 2024 6 12))) =
      [daysFromCivil 2024 6 10, daysFromCivil 2024 6 11,
       daysFromCivil 2024 6 12, daysFromCivil 2024 6 13,
       daysFromCivil 2024 6 14, daysFromCivil 2024 6 15,
       daysFromCivil 2024 6 16] := by
  have hgen : ∀ s : Int,
      generateWeekDates s = [s, s + 1, s + 2, s + 3, s + 4, s + 5, s + 6] := by
    intro s
    show (List.range 7).map (fun i => setDate s (getDate s + (i : Int))) =
      [s, s + 1, s + 2, s + 3, s + 4, s + 5, s + 6]
    rw [show List.range 7 = [0, 1, 2, 3, 4, 5, 6] from rfl]
    simp only [List.map_cons, List.map_nil, setDate_getDate_add]
    norm_num
  have hsun : ∀ w : Int, weekDayOf w = 1 → weekDayOf (w + 6) = 0 := by
    intro w hw
    simp only [weekDayOf] at hw ⊢
    omega
  constructor
  · intro z
    have hcor : correctedDate z = z + 1 := setDate_getDate_add z 1
    have hmon : weekDayOf (getStartOfWeek (correctedDate z)) = 1 := by
      rw [getStartOfWeek_eq]
      simp only [weekDayOf]
      split_ifs <;> omega
    have hband : correctedDate z - 6 ≤ getStartOfWeek (correctedDate z) ∧
        getStartOfWeek (correctedDate z) ≤ correctedDate z := by
      rw [getStartOfWeek_eq]
      simp only [weekDayOf]
      split_ifs <;> omega
    refine ⟨hgen _, hmon, setDate_getDate_add _ 6, hsun _ hmon, hcor, ?_⟩
    rw [hgen]
    simp only [List.mem_cons, List.not_mem_nil, or_false]
    omega
  · decide

/-- C2 (amended): for every representable calendar date whose year lies
outside 0..99 (years 0..99 are remapped to 1900..1999 by `Date.UTC`'s
`MakeFullYear` rule, which breaks the round trip), formatting via
`formatDateToYYYYMMDD` yields the canonical string of its local calendar
fields (independent of the timestamp/offset pair presenting those
fields), and re-parsing the output yields a timestamp whose UTC calendar
day is the same calendar date. -/
theorem C2_format_roundtrip (y m d t o : Int) (hv : validDate y m d)
    (hy0 : y < 0 ∨ 100 ≤ y)
    (hr1 : -100000000 ≤ daysFromCivil y m d)
    (hr2 : daysFromCivil y m d ≤ 100000000)
    (hloc : localCivil t o = (y, m, d)) :
    formatDateToYYYYMMDD t o = fmtYMD y m d ∧
    parseDateOnly (formatDateToYYYYMMDD t o) =
      some (1440 * daysFromCivil y m d) ∧
    civilFromDays (1440 * daysFromCivil y m d / 1440) = (y, m, d) := by
  have hB := civilFromDays_daysFromCivil y m d hv
  have hyb := (civilFromDays_fields (daysFromCivil y m d) y m d hB).2
    (by omega) (by omega)
  have hdiv : 1440 * daysFromCivil y m d / 1440 = daysFromCivil y m d := by
    omega
  have hfmt : formatDateToYYYYMMDD t o = fmtYMD y m d := by
    simp only [formatDateToYYYYMMDD, hloc]
    show toISODatePart (dateUTC y m d) = _
    rw [toISODatePart, dateUTC, makeFullYear, if_neg (by omega :
        ¬ (0 ≤ y ∧ y ≤ 99)), hdiv, hB]
  refine ⟨hfmt, ?_, ?_⟩
  · rw [hfmt]
    exact parseDateOnly_fmtYMD y m d hv hyb.1 hyb.2 hr1 hr2
  · rw [hdiv, hB]

/-- Witness for `C2_format_roundtrip` at 2024-06-12 viewed from UTC. -/
theorem C2_format_roundtrip_witness :
    formatDateToYYYYMMDD (1440 * 19886) 0 = fmtYMD 2024 6 12 ∧
    parseDateOnly (formatDateToYYYYMMDD (1440 * 19886) 0) =
      some (1440 * daysFromCivil 2024 6 12) ∧
    civilFromDays (1440 * daysFromCivil 2024 6 12 / 1440) = (2024, 6, 12) :=
  C2_format_roundtrip 2024 6 12 (1440 * 19886) 0 (by decide) (by decide)
    (by decide) (by decide) (by decide)

/-- C2 fails as stated: the valid, representable calendar date
0050-06-12 is formatted as 1950-06-12, because `formatDateToYYYYMMDD`
passes `getFullYear()` to `Date.UTC`, whose `MakeFullYear` rule remaps
year 50 to 1950; re-parsing therefore yields the UTC calendar day
1950-06-12, not the original date. -/
theorem C2_counterexample :
    validDate 50 6 12 ∧
    -100000000 ≤ daysFromCivil 50 6 12 ∧
    daysFromCivil 50 6 12 ≤ 100000000 ∧
    localCivil (1440 * daysFromCivil 50 6 12) 0 = (50, 6, 12) ∧
    formatDateToYYYYMMDD (1440 * daysFromCivil 50 6 12) 0 =
      fmtYMD 1950 6 12 ∧
    parseDateOnly (formatDateToYYYYMMDD (1440 * daysFromCivil 50 6 12) 0) =
      some (1440 * daysFromCivil 1950 6 12) ∧
    civilFromDays (1440 * daysFromCivil 1950 6 12 / 1440) = (1950, 6, 12) ∧
    ¬ ((1950, 6, 12) = ((50 : Int), (6 : Int), (12 : Int))) := by
  refine ⟨by decide, by decide, by decide, by decide, by decide, by decide,
    by decide, by decide⟩

/-- The two values of the `direction` argument of `navigateWeek`. -/
inductive Direction where
  | next
  | previous
deriving DecidableEq

/-- Model of `navigateWeek` (TaskView.js lines 119-123): parse the selected date,
change the local day-of-month by ±7 (`setDate`), and select the
formatted result.  `formatDateToYYYYMMDD` depends only on the local
calendar day of its argument, which after `setDate` is the day number
`L2` below; the returned string is the new `selectedDate`. -/
def navigateWeek (s : List Char) (o : Int) (dir : Direction) : Option (List Char) :=
  match parseDateOnly s with
  | none => none
  | some t =>
    let L := localDay t o
    let c := civilFromDays L
    let L2 := daysFromCivil c.1 c.2.1
      (c.2.2 + (match dir with | Direction.next => 7 | Direction.previous => -7))
    some (formatDay L2)

/-- C3 fails as stated: from a local time zone west of UTC (offset
-300 minutes, UTC-5), navigating next and then previous moves
2024-06-12 to 2024-06-10 instead of back to itself. -/
theorem C3_counterexample :
    Option.bind (navigateWeek ("2024-06-12".data) (-300) Direction.next)
      (fun s2 => navigateWeek s2 (-300) Direction.previous) =
      some ("2024-06-10".data) ∧
    ¬ ("2024-06-10".data = "2024-06-12".data) := by
  constructor
  · decide
  · decide

/-- C3 (amended): for local time zones at or east of UTC
(`0 ≤ o < 1440` minutes), and reference dates for which neither the
date's year nor the year seven days later lies in the `MakeFullYear`
remap range 0..99, `navigateWeek next` followed by
`navigateWeek previous` returns the reference date string to its
original value. -/
theorem C3_next_previous (y m d o : Int) (hv : validDate y m d)
    (hy0 : y < 0 ∨ 100 ≤ y)
    (hy7 : (civilFromDays (daysFromCivil y m d + 7)).1 < 0 ∨
      100 ≤ (civilFromDays (daysFromCivil y m d + 7)).1)
    (hr1 : -99999000 ≤ daysFromCivil y m d)
    (hr2 : daysFromCivil y m d ≤ 99999000)
    (ho1 : 0 ≤ o) (ho2 : o < 1440) :
    Option.bind (navigateWeek (fmtYMD y m d) o Direction.next)
      (fun s2 => navigateWeek s2 o Direction.previous) =
      some (fmtYMD y m d) := by
  have hB := civilFromDays_daysFromCivil y m d hv
  have hyb := (civilFromDays_fields (daysFromCivil y m d) y m d hB).2
    (by omega) (by omega)
  have hparse : parseDateOnly (fmtYMD y m d) =
      some (1440 * daysFromCivil y m d) :=
    parseDateOnly_fmtYMD y m d hv hyb.1 hyb.2 (by omega) (by omega)
  have hL : localDay (1440 * daysFromCivil y m d) o = daysFromCivil y m d := by
    rw [localDay]; omega
  have hnav1 : navigateWeek (fmtYMD y m d) o Direction.next =
      some (formatDay (daysFromCivil y m d + 7)) := by
    simp only [navigateWeek, hparse, hL, hB]
    rw [daysFromCivil_day_add]
  rcases hc7 : civilFromDays (daysFromCivil y m d + 7) with ⟨y2, m2, d2⟩
  have hA7 : daysFromCivil y2 m2 d2 = daysFromCivil y m d + 7 :=
    daysFromCivil_of_civilFromDays _ y2 m2 d2 hc7
  obtain ⟨hv2, hybgen⟩ := civilFromDays_fields _ y2 m2 d2 hc7
  have hyb2 := hybgen (by omega) (by omega)
  have hfd7 : formatDay (daysFromCivil y m d + 7) = fmtYMD y2 m2 d2 := by
    rw [formatDay_eq _ hy7, hc7]
  have hparse2 : parseDateOnly (fmtYMD y2 m2 d2) =
      some (1440 * daysFromCivil y2 m2 d2) :=
    parseDateOnly_fmtYMD y2 m2 d2 hv2 hyb2.1 hyb2.2 (by omega) (by omega)
  have hL2 : localDay (1440 * (daysFromCivil y m d + 7)) o =
      daysFromCivil y m d + 7 := by
    rw [localDay]; omega
  rw [hnav1]
  show navigateWeek (formatDay (daysFromCivil y m d + 7)) o Direction.previous = _
  rw [hfd7]
  simp only [navigateWeek, hparse2, hA7, hL2, hc7]
  rw [daysFromCivil_day_add, hA7]
  have hz : daysFromCivil y m d + 7 + -7 = daysFromCivil y m d := by omega
  have h1 : (civilFromDays (daysFromCivil y m d)).1 < 0 ∨
      100 ≤ (civilFromDays (daysFromCivil y m d)).1 := by
    rw [hB]
    exact hy0
  rw [hz, formatDay_eq _ h1, hB]

/-- Witness for `C3_next_previous` at 2024-06-12 in UTC. -/
theorem C3_next_previous_witness :
    Option.bind (navigateWeek (fmtYMD 2024 6 12) 0 Direction.next)
      (fun s2 => navigateWeek s2 0 Direction.previous) =
      some (fmtYMD 2024 6 12) :=
  C3_next_previous 2024 6 12 0 (by decide) (by decide) (by decide)
    (by decide) (by decide) (by decide) (by decide)

/-! ### Task state and the remote-call handlers -/

/-- A task as cached by the view (spec section 3; owned by the remote
service). -/
structure Task where
  id : Nat
  name : List Char
  completed : Bool
  date : List Char
deriving DecidableEq

/-- A remote call made through `apiService`. -/
inductive ApiCall where
  | getTasksByDate : List Char → ApiCall
  | addTask : List Char → Bool → List Char → ApiCall
  | toggleTaskCompletion : Nat → ApiCall
  | deleteTask : Nat → ApiCall
deriving DecidableEq

/-- The component's local state: the pending input text (`newTask`) and
the per-date task map (`tasksByDate`); a date string absent from the map
(`undefined` in JavaScript) is `none`. -/
structure ViewState where
  newTask : List Char
  tasksByDate : List Char → Option (List Task)

/-- JavaScript whitespace: the character class removed by
`String.prototype.trim` (WhiteSpace ∪ LineTerminator). -/
def isJsWhitespace (c : Char) : Bool :=
  c.toNat = 9 || c.toNat = 10 || c.toNat = 11 || c.toNat = 12 ||
  c.toNat = 13 || c.toNat = 32 || c.toNat = 160 || c.toNat = 5760 ||
  (8192 ≤ c.toNat && c.toNat ≤ 8202) || c.toNat = 8232 ||
  c.toNat = 8233 || c.toNat = 8239 || c.toNat = 8287 ||
  c.toNat = 12288 || c.toNat = 65279

/-- Model of `String.prototype.trim`. -/
def jsTrim (s : List Char) : List Char :=
  ((s.dropWhile isJsWhitespace).reverse.dropWhile isJsWhitespace).reverse

/-- Model of `handleAddTask` (TaskView.js lines 72-91) for a day whose local
calendar day number is `date`; `api` is the outcome of the remote
`apiService.addTask` call.  Returns the new state and the list of remote
calls issued. -/
def handleAddTask (st : ViewState) (date : Int) (api : Except Unit Task) :
    ViewState × List ApiCall :=
  if jsTrim st.newTask ≠ [] then
    let formattedDate := formatDay date
    match api with
    | Except.ok response =>
      ({ newTask := [],
         tasksByDate := fun k =>
           if k = formattedDate
           then some (((st.tasksByDate formattedDate).getD []) ++ [response])
           else st.tasksByDate k },
       [ApiCall.addTask st.newTask false formattedDate])
    | Except.error _ =>
      (st, [ApiCall.addTask st.newTask false formattedDate])
  else (st, [])

/-- Model of `handleToggleCompletion` (TaskView.js lines 93-105).  The result is
`none` when the update applies `.map` to an absent entry (the TypeError
raised on `undefined`); a remote failure leaves the state unchanged. -/
def handleToggleCompletion (st : ViewState) (taskId : Nat)
    (taskDate : List Char) (api : Except Unit Task) :
    Option (ViewState × List ApiCall) :=
  match api with
  | Except.ok updatedTask =>
    match st.tasksByDate taskDate with
    | some l =>
      some
        ({ st with
            tasksByDate := fun k =>
              if k = taskDate then
                some (l.map fun task =>
                  if task.id = taskId then updatedTask else task)
              else st.tasksByDate k },
         [ApiCall.toggleTaskCompletion taskId])
    | none => none
  | Except.error _ => some (st, [ApiCall.toggleTaskCompletion taskId])

/-- Model of `handleDeleteTask` (TaskView.js lines 107-117), with the same
conventions as `handleToggleCompletion`. -/
def handleDeleteTask (st : ViewState) (taskId : Nat)
    (taskDate : List Char) (api : Except Unit Unit) :
    Option (ViewState × List ApiCall) :=
  match api with
  | Except.ok _ =>
    match st.tasksByDate taskDate with
    | some l =>
      some
        ({ st with
            tasksByDate := fun k =>
              if k = taskDate then
                some (l.filter fun task => task.id != taskId)
              else st.tasksByDate k },
         [ApiCall.deleteTask taskId])
    | none => none
  | Except.error _ => some (st, [ApiCall.deleteTask taskId])

/-- The fetch loop of `fetchTasksForWeek` (TaskView.js lines 43-58):
fetch each date in order; a success stores the returned list under the
formatted date in the accumulator object, a failure stores nothing; the
second component lists the calls in order. -/
def fetchLoop (api : List Char → Except Unit (List Task)) :
    List Int → (List Char → Option (List Task)) →
    (List Char → Option (List Task)) × List ApiCall
  | [], acc => (acc, [])
  | z :: rest, acc =>
    let k := formatDay z
    let acc2 := match api k with
      | Except.ok tasks => fun k2 => if k2 = k then some tasks else acc k2
      | Except.error _ => acc
    let r := fetchLoop api rest acc2
    (r.1, ApiCall.getTasksByDate k :: r.2)

/-- Model of `fetchTasksForWeek` (TaskView.js lines 43-58): builds a fresh map
(`tasksByDateTemp = {}`) over the week's dates and installs it wholesale
with the single `setTasksForDate` call at the end; the previous map does
not enter at all. -/
def fetchTasksForWeek (weekDates : List Int)
    (api : List Char → Except Unit (List Task)) :
    (List Char → Option (List Task)) × List ApiCall :=
  fetchLoop api weekDates (fun _ => none)

/-- The calls issued by the fetch loop: one `getTasksByDate` per date,
in order. -/
theorem fetchLoop_calls (api : List Char → Except Unit (List Task))
    (dates : List Int) (acc : List Char → Option (List Task)) :
    (fetchLoop api dates acc).2 =
      dates.map (fun z => ApiCall.getTasksByDate (formatDay z)) := by
  induction dates generalizing acc with
  | nil => rfl
  | cons z rest ih =>
    show ApiCall.getTasksByDate (formatDay z) :: (fetchLoop api rest _).2 = _
    rw [ih, List.map_cons]

/-- The map built by the fetch loop, pointwise. -/
theorem fetchLoop_value (api : List Char → Except Unit (List Task))
    (dates : List Int) (acc : List Char → Option (List Task))
    (k : List Char) :
    (fetchLoop api dates acc).1 k =
      (match api k with
       | Except.ok tasks =>
         if k ∈ dates.map formatDay then some tasks else acc k
       | Except.error _ => acc k) := by
  induction dates generalizing acc with
  | nil => cases hk : api k <;> simp [fetchLoop, hk]
  | cons z rest ih =>
    have hstep : (fetchLoop api (z :: rest) acc).1 =
        (fetchLoop api rest
          (match api (formatDay z) with
           | Except.ok tasks =>
             fun k2 => if k2 = formatDay z then some tasks else acc k2
           | Except.error _ => acc)).1 := rfl
    rw [hstep, ih]
    by_cases hkz : k = formatDay z
    · rw [hkz]
      cases hk2 : api (formatDay z) with
      | ok tasks2 => simp [hk2, List.map_cons, List.mem_cons]
      | error e2 => simp [hk2]
    · cases hk : api k with
      | ok tasks =>
        cases hk2 : api (formatDay z) with
        | ok tasks2 => simp [hk, hk2, hkz, List.map_cons, List.mem_cons]
        | error e2 => simp [hk, hk2, hkz, List.map_cons, List.mem_cons]
      | error e =>
        cases hk2 : api (formatDay z) with
        | ok tasks2 => simp [hk, hk2, hkz]
        | error e2 => simp [hk, hk2]

/-- C4: adding with a blank (empty or all-whitespace) pending name makes
no remote call and leaves the state exactly unchanged. -/
theorem C4_blank_add_is_noop (st : ViewState) (date : Int)
    (api : Except Unit Task)
    (h : st.newTask = [] ∨ ∀ c ∈ st.newTask, isJsWhitespace c = true) :
    handleAddTask st date api = (st, []) := by
  have htrim : jsTrim st.newTask = [] := by
    rcases h with h | h
    · rw [h]; rfl
    · rw [jsTrim, List.dropWhile_eq_nil_iff.mpr h]
      rfl
  rw [handleAddTask]
  simp [htrim]

/-- A whitespace-only pending name, for the witness below. -/
def blankState : ViewState := ⟨[' ', ' '], fun _ => none⟩

/-- Witness for `C4_blank_add_is_noop`. -/
theorem C4_blank_add_is_noop_witness :
    handleAddTask blankState 19886 (Except.error ()) = (blankState, []) :=
  C4_blank_add_is_noop blankState 19886 (Except.error ())
    (Or.inr (by decide))

/-- C5: a successful add appends the server-returned task to its own
date's entry (starting from the empty list when the date was absent),
leaves every other date's entry unchanged, and issued exactly the one
`addTask` call. -/
theorem C5_add_success_appends (st : ViewState) (date : Int) (T : Task)
    (h : jsTrim st.newTask ≠ []) :
    (handleAddTask st date (Except.ok T)).1.tasksByDate (formatDay date) =
      some (((st.tasksByDate (formatDay date)).getD []) ++ [T]) ∧
    (∀ k, k ≠ formatDay date →
      (handleAddTask st date (Except.ok T)).1.tasksByDate k =
        st.tasksByDate k) ∧
    (handleAddTask st date (Except.ok T)).2 =
      [ApiCall.addTask st.newTask false (formatDay date)] := by
  rw [handleAddTask, if_pos h]
  exact ⟨by simp, fun k hk => by simp [hk], rfl⟩

/-- A pending name and a server-returned task, for witnesses. -/
def sampleTask : Task := ⟨1, "buy milk".data, false, "2024-06-12".data⟩

/-- A state with a pending name, for witnesses. -/
def pendingState : ViewState := ⟨"buy milk".data, fun _ => none⟩

/-- Witness for `C5_add_success_appends`. -/
theorem C5_add_success_appends_witness :
    (handleAddTask pendingState 19886 (Except.ok sampleTask)).1.tasksByDate
      (formatDay 19886) =
      some (((pendingState.tasksByDate (formatDay 19886)).getD []) ++
        [sampleTask]) ∧
    (∀ k, k ≠ formatDay 19886 →
      (handleAddTask pendingState 19886 (Except.ok sampleTask)).1.tasksByDate
        k = pendingState.tasksByDate k) ∧
    (handleAddTask pendingState 19886 (Except.ok sampleTask)).2 =
      [ApiCall.addTask pendingState.newTask false (formatDay 19886)] :=
  C5_add_success_appends pendingState 19886 sampleTask (by decide)

/-- C6: a successful delete removes every task with the given id from
that date's list, keeps the surviving tasks in their relative order (the
new list is a sublist of the old), and leaves every other date's entry
unchanged. -/
theorem C6_delete_success_removes (st : ViewState) (taskId : Nat)
    (taskDate : List Char) (l : List Task)
    (h : st.tasksByDate taskDate = some l) :
    ∃ st2, handleDeleteTask st taskId taskDate (Except.ok ()) =
        some (st2, [ApiCall.deleteTask taskId]) ∧
      st2.tasksByDate taskDate =
        some (l.filter fun task => task.id != taskId) ∧
      (∀ t ∈ l.filter (fun task => task.id != taskId), t.id ≠ taskId) ∧
      (l.filter fun task => task.id != taskId).Sublist l ∧
      (∀ k, k ≠ taskDate → st2.tasksByDate k = st.tasksByDate k) := by
  refine ⟨{ st with tasksByDate := fun k =>
      if k = taskDate then some (l.filter fun task => task.id != taskId)
      else st.tasksByDate k }, ?_, by simp, ?_, List.filter_sublist l,
      fun k hk => by simp [hk]⟩
  · simp [handleDeleteTask, h]
  · intro t ht
    have := List.of_mem_filter ht
    simpa using this

/-- A state holding one task on 2024-06-12, for witnesses. -/
def populatedState : ViewState :=
  ⟨[], fun k => if k = "2024-06-12".data then some [sampleTask] else none⟩

/-- Witness for `C6_delete_success_removes`. -/
theorem C6_delete_success_removes_witness :
    ∃ st2, handleDeleteTask populatedState 1 ("2024-06-12".data)
        (Except.ok ()) = some (st2, [ApiCall.deleteTask 1]) ∧
      st2.tasksByDate ("2024-06-12".data) =
        some ([sampleTask].filter fun task => task.id != 1) ∧
      (∀ t ∈ [sampleTask].filter (fun task => task.id != 1), t.id ≠ 1) ∧
      ([sampleTask].filter fun task => task.id != 1).Sublist [sampleTask] ∧
      (∀ k, k ≠ "2024-06-12".data →
        st2.tasksByDate k = populatedState.tasksByDate k) :=
  C6_delete_success_removes populatedState 1 ("2024-06-12".data)
    [sampleTask] (by decide)

/-- C7: when the remote call fails, each handler swallows the failure
(its result is an ordinary value, not an exception) and returns the
state exactly as it was, including the pending input text. -/
theorem C7_remote_failure_atomic (st : ViewState) (date : Int)
    (taskId : Nat) (taskDate : List Char) (e e2 e3 : Unit) :
    (handleAddTask st date (Except.error e)).1 = st ∧
    handleToggleCompletion st taskId taskDate (Except.error e2) =
      some (st, [ApiCall.toggleTaskCompletion taskId]) ∧
    handleDeleteTask st taskId taskDate (Except.error e3) =
      some (st, [ApiCall.deleteTask taskId]) := by
  refine ⟨?_, rfl, rfl⟩
  rw [handleAddTask]
  split_ifs <;> rfl

/-- C8: the week fetch issues exactly one `getTasksByDate` per day in
order (no retries) and the installed map is determined by the per-day
outcomes alone: successes map to the returned list, failures and
non-window keys have no entry (so nothing of any previous map
survives). -/
theorem C8_fetch_replaces_state (weekDates : List Int)
    (api : List Char → Except Unit (List Task)) :
    (fetchTasksForWeek weekDates api).2 =
      weekDates.map (fun z => ApiCall.getTasksByDate (formatDay z)) ∧
    (∀ k l, api k = Except.ok l → k ∈ weekDates.map formatDay →
      (fetchTasksForWeek weekDates api).1 k = some l) ∧
    (∀ k e, api k = Except.error e →
      (fetchTasksForWeek weekDates api).1 k = none) ∧
    (∀ k, k ∉ weekDates.map formatDay →
      (fetchTasksForWeek weekDates api).1 k = none) := by
  refine ⟨fetchLoop_calls api weekDates _, ?_, ?_, ?_⟩
  · intro k l hk hmem
    rw [fetchTasksForWeek, fetchLoop_value, hk]
    simp [hmem]
  · intro k e hk
    rw [fetchTasksForWeek, fetchLoop_value, hk]
  · intro k hmem
    rw [fetchTasksForWeek, fetchLoop_value]
    cases hk : api k
    · rfl
    · simp [hmem]

/-- Witness for `C8_fetch_replaces_state`. -/
theorem C8_fetch_replaces_state_witness :
    (fetchTasksForWeek [19886] (fun _ => Except.ok [])).2 =
      [19886].map (fun z => ApiCall.getTasksByDate (formatDay z)) ∧
    (fetchTasksForWeek [19886] (fun _ => Except.ok [])).1 (formatDay 19886) =
      some [] ∧
    (fetchTasksForWeek [19886] (fun _ => Except.ok [])).1 ("x".data) =
      none := by
  obtain ⟨h1, h2, h3, h4⟩ :=
    C8_fetch_replaces_state [19886] (fun _ => Except.ok [])
  exact ⟨h1, h2 _ [] rfl (by decide), h4 _ (by decide)⟩

/-- The key set of a task map is exactly the given list of date
strings. -/
def weekKeys (st : List Char → Option (List Task))
    (w : List (List Char)) : Prop :=
  ∀ k, st k ≠ none ↔ k ∈ w

/-- C9 fails as stated: after a settled fetch in which one day's request
failed, that day has no entry, so the key set does not equal the week's
7 formatted dates. -/
theorem C9_counterexample :
    ¬ weekKeys
      (fetchTasksForWeek
        (generateWeekDates
          (getStartOfWeek (correctedDate (daysFromCivil 2024 6 12))))
        (fun k => if k = formatDay (daysFromCivil 2024 6 10)
                  then Except.error () else Except.ok [])).1
      ((generateWeekDates
        (getStartOfWeek (correctedDate (daysFromCivil 2024 6 12)))).map
        formatDay) := by
  intro h
  have hmem : formatDay (daysFromCivil 2024 6 10) ∈
      (generateWeekDates
        (getStartOfWeek (correctedDate (daysFromCivil 2024 6 12)))).map
        formatDay := by decide
  have hval : (fetchTasksForWeek
      (generateWeekDates
        (getStartOfWeek (correctedDate (daysFromCivil 2024 6 12))))
      (fun k => if k = formatDay (daysFromCivil 2024 6 10)
                then Except.error () else Except.ok [])).1
      (formatDay (daysFromCivil 2024 6 10)) = none := by decide
  exact absurd hval ((h _).mpr hmem)

/-- C9 (amended): when every day of the window fetched successfully, the
key set of the installed map equals the window's formatted dates, and
the equality is preserved by every add, toggle and delete whose date key
lies in the window. -/
theorem C9_keys_invariant :
    (∀ (weekDates : List Int) (api : List Char → Except Unit (List Task)),
      (∀ k, k ∈ weekDates.map formatDay → ∃ l, api k = Except.ok l) →
      weekKeys (fetchTasksForWeek weekDates api).1
        (weekDates.map formatDay)) ∧
    (∀ (st : ViewState) (w : List (List Char)) (date : Int)
        (api : Except Unit Task),
      weekKeys st.tasksByDate w → formatDay date ∈ w →
      weekKeys (handleAddTask st date api).1.tasksByDate w) ∧
    (∀ (st : ViewState) (w : List (List Char)) (taskId : Nat)
        (kk : List Char) (api : Except Unit Task)
        (r : ViewState × List ApiCall),
      weekKeys st.tasksByDate w → kk ∈ w →
      handleToggleCompletion st taskId kk api = some r →
      weekKeys r.1.tasksByDate w) ∧
    (∀ (st : ViewState) (w : List (List Char)) (taskId : Nat)
        (kk : List Char) (api : Except Unit Unit)
        (r : ViewState × List ApiCall),
      weekKeys st.tasksByDate w → kk ∈ w →
      handleDeleteTask st taskId kk api = some r →
      weekKeys r.1.tasksByDate w) := by
  refine ⟨?_, ?_, ?_, ?_⟩
  · intro weekDates api hall k
    rw [fetchTasksForWeek, fetchLoop_value api weekDates (fun _ => none) k]
    constructor
    · intro hne
      by_contra hmem
      cases hk : api k with
      | ok l => rw [hk] at hne; simp [hmem] at hne
      | error e => rw [hk] at hne; simp at hne
    · intro hmem
      obtain ⟨l, hl⟩ := hall k hmem
      rw [hl]
      simp [hmem]
  · intro st w date api hkeys hmem
    rw [handleAddTask]
    split_ifs with htrim
    · cases api with
      | ok T =>
        intro k
        by_cases hk : k = formatDay date
        · simp [hk, hmem]
        · simp [hk]
          exact hkeys k
      | error e => exact hkeys
    · exact hkeys
  · intro st w taskId kk api r hkeys hmem hr
    cases api with
    | ok T =>
      simp only [handleToggleCompletion] at hr
      cases hl : st.tasksByDate kk with
      | none => rw [hl] at hr; simp at hr
      | some l =>
        rw [hl] at hr
        have hr2 := Option.some.inj hr
        intro k
        rw [← hr2]
        by_cases hk : k = kk
        · simp [hk, hmem]
        · simp [hk]
          exact hkeys k
    | error e =>
      simp only [handleToggleCompletion] at hr
      have hr2 := Option.some.inj hr
      rw [← hr2]
      exact hkeys
  · intro st w taskId kk api r hkeys hmem hr
    cases api with
    | ok u =>
      simp only [handleDeleteTask] at hr
      cases hl : st.tasksByDate kk with
      | none => rw [hl] at hr; simp at hr
      | some l =>
        rw [hl] at hr
        have hr2 := Option.some.inj hr
        intro k
        rw [← hr2]
        by_cases hk : k = kk
        · simp [hk, hmem]
        · simp [hk]
          exact hkeys k
    | error e =>
      simp only [handleDeleteTask] at hr
      have hr2 := Option.some.inj hr
      rw [← hr2]
      exact hkeys

/-- The key set of `populatedState` is the singleton 2024-06-12. -/
theorem populatedState_keys :
    weekKeys populatedState.tasksByDate ("2024-06-12".data :: []) := by
  intro k
  by_cases hk : k = "2024-06-12".data <;> simp [populatedState, hk]

/-- Witness for `C9_keys_invariant`. -/
theorem C9_keys_invariant_witness :
    weekKeys (fetchTasksForWeek [19886] (fun _ => Except.ok [])).1
      ([19886].map formatDay) ∧
    weekKeys (handleAddTask populatedState 19886
      (Except.ok sampleTask)).1.tasksByDate ("2024-06-12".data :: []) ∧
    weekKeys (populatedState,
      [ApiCall.toggleTaskCompletion 1]).1.tasksByDate
      ("2024-06-12".data :: []) ∧
    weekKeys (populatedState, [ApiCall.deleteTask 1]).1.tasksByDate
      ("2024-06-12".data :: []) := by
  obtain ⟨h1, h2, h3, h4⟩ := C9_keys_invariant
  exact ⟨h1 [19886] _ (fun k _ => ⟨[], rfl⟩),
    h2 populatedState _ 19886 (Except.ok sampleTask) populatedState_keys
      (by decide),
    h3 populatedState _ 1 ("2024-06-12".data) (Except.error ()) _
      populatedState_keys (by decide) rfl,
    h4 populatedState _ 1 ("2024-06-12".data) (Except.error ()) _
      populatedState_keys (by decide) rfl⟩

/-- C10: on a successful remote call for a date with no entry in the
map, the toggle and delete updates are undefined (they apply `.map` or
`.filter` to `undefined`), while add tolerates the absent entry by
defaulting to the empty list. -/
theorem C10_absent_date_partiality :
    (∀ (st : ViewState) (taskId : Nat) (taskDate : List Char) (T : Task),
      st.tasksByDate taskDate = none →
      handleToggleCompletion st taskId taskDate (Except.ok T) = none) ∧
    (∀ (st : ViewState) (taskId : Nat) (taskDate : List Char),
      st.tasksByDate taskDate = none →
      handleDeleteTask st taskId taskDate (Except.ok ()) = none) ∧
    (∀ (st : ViewState) (date : Int) (T : Task),
      st.tasksByDate (formatDay date) = none → jsTrim st.newTask ≠ [] →
      (handleAddTask st date (Except.ok T)).1.tasksByDate (formatDay date) =
        some [T]) := by
  refine ⟨?_, ?_, ?_⟩
  · intro st taskId taskDate T h
    simp [handleToggleCompletion, h]
  · intro st taskId taskDate h
    simp [handleDeleteTask, h]
  · intro st date T h htrim
    rw [handleAddTask, if_pos htrim]
    simp [h]

/-- Witness for `C10_absent_date_partiality`. -/
theorem C10_absent_date_partiality_witness :
    handleToggleCompletion pendingState 1 ("2024-06-12".data)
      (Except.ok sampleTask) = none ∧
    handleDeleteTask pendingState 1 ("2024-06-12".data)
      (Except.ok ()) = none ∧
    (handleAddTask pendingState 19886 (Except.ok sampleTask)).1.tasksByDate
      (formatDay 19886) = some [sampleTask] := by
  obtain ⟨h1, h2, h3⟩ := C10_absent_date_partiality
  exact ⟨h1 pendingState 1 _ sampleTask rfl, h2 pendingState 1 _ rfl,
    h3 pendingState 19886 sampleTask rfl (by decide)⟩


end TaskView
